import Mathlib

set_option maxRecDepth 20000

/-!
Verification of the `lights` gateway core against its specification.

The Rust sources are shallowly embedded: byte strings become `List Nat`
(each element one byte value), the nom parsers over `&[u8]` become
`Option`-returning functions threading the unconsumed remainder, and the
async framer loop of `busio.rs` becomes a function from the list of chunks
delivered by successive reads to the list of lines handed to the callback.
-/

namespace Lights

/-! ## codec.rs: data types -/

/-- `Setting(u8)`: an 8-bit option flag mask (codec.rs line 16). -/
structure Setting where
  val : Nat
deriving DecidableEq

/-- Options 1 flags (codec.rs lines 19-23). -/
def CONNECT : Setting := ⟨1⟩

def SR_CHK : Setting := ⟨8⟩

def SMART : Setting := ⟨16⟩

def MONITOR : Setting := ⟨32⟩

def ID_MON : Setting := ⟨64⟩

/-- Options 3 flags (codec.rs lines 26-29). -/
def PARAM_CHANGE_NOTIFY : Setting := ⟨1⟩

def LOCAL_SAL : Setting := ⟨2⟩

def POWER_UP_NOTIFY : Setting := ⟨4⟩

def EX_STAT : Setting := ⟨8⟩

/-- `impl BitOr for Setting` (codec.rs lines 32-38): bitwise or of the masks. -/
def Setting.bitor (a b : Setting) : Setting := ⟨Nat.lor a.val b.val⟩

/-- `Param(u8)`: device parameter address (codec.rs line 41). -/
structure Param where
  val : Nat
deriving DecidableEq

def APPLICATION1 : Param := ⟨0x21⟩

def APPLICATION2 : Param := ⟨0x22⟩

def OPTIONS1 : Param := ⟨0x30⟩

def OPTIONS1_NV : Param := ⟨0x41⟩

def OPTIONS3 : Param := ⟨0x42⟩

/-- The 16-entry `(code, seconds)` ramp table `RAMP_CODES` (codec.rs lines 48-65). -/
def RAMP_CODES : List (Nat × Nat) :=
  [(0x02, 0), (0x0A, 4), (0x12, 8), (0x1a, 12), (0x22, 20), (0x2a, 30),
   (0x32, 40), (0x3a, 60), (0x42, 90), (0x4a, 120), (0x52, 180), (0x5a, 300),
   (0x62, 420), (0x6a, 600), (0x72, 900), (0x7a, 1020)]

/-- `Ramp(u16)`: a ramp duration in seconds (codec.rs line 68). -/
structure Ramp where
  seconds : Nat
deriving DecidableEq

/-- The scanning loop of `Ramp::decode` (codec.rs lines 72-77): first table
entry whose code equals the argument. -/
def rampLookup : List (Nat × Nat) → Nat → Option Ramp
  | [], _ => none
  | (c, s) :: rest, code => if c = code then some ⟨s⟩ else rampLookup rest code

/-- `Ramp::decode(code)` (codec.rs lines 71-78). -/
def Ramp.decode (code : Nat) : Option Ramp := rampLookup RAMP_CODES code

/-- The scanning loop of `Ramp::encode` (codec.rs lines 82-87): first table
entry whose seconds bound the request, else the 1020s code. -/
def rampEncodeLoop : List (Nat × Nat) → Nat → Nat
  | [], _ => 0x7a
  | (c, s) :: rest, secs => if secs ≤ s then c else rampEncodeLoop rest secs

/-- `Ramp::encode(&self)` (codec.rs lines 80-88). -/
def Ramp.encode (r : Ramp) : Nat := rampEncodeLoop RAMP_CODES r.seconds

/-- `Level(u8)`: brightness 0-255 (codec.rs line 92). -/
structure Level where
  val : Nat
deriving DecidableEq

def ON : Level := ⟨0xff⟩

def OFF : Level := ⟨0⟩

/-- `Group(u8)`: lighting group address (codec.rs line 97). -/
structure Group where
  val : Nat
deriving DecidableEq

/-- The `Message` sum type (codec.rs lines 100-107). `Bytes` payloads are
byte lists. -/
inductive Message where
  | SetParam : Param → Setting → Message
  | SetVar : Group → Level → Ramp → Message
  | Reset : Message
  | StopRamp : Group → Message
  | Status : Group → List Nat → Message
  | Unrecognised : List Nat → Message
deriving DecidableEq

/-! ## codec.rs: decode -/

/-- Value of one ASCII hex digit byte, as accepted by Rust
`char::to_digit(16)`: digits 0-9 (bytes 48-57), a-f (97-102), A-F (65-70). -/
def hexDigitVal (b : Nat) : Option Nat :=
  if 48 ≤ b ∧ b ≤ 57 then some (b - 48)
  else if 97 ≤ b ∧ b ≤ 102 then some (b - 87)
  else if 65 ≤ b ∧ b ≤ 70 then some (b - 55)
  else none

/-- `hex_extract` (codec.rs lines 110-113): `str::from_utf8` then
`u8::from_str_radix(s, 16)` on a 2-byte slice.  `from_str_radix` on an
unsigned type accepts an optional leading plus sign (byte 43) before the
digits, so the accepted 2-byte forms are exactly: two hex digits, or a plus
sign followed by one hex digit.  Every other 2-byte slice (including any
non-ASCII byte, which either fails UTF-8 decoding or yields a non-digit
character) is rejected. -/
def hex_extract (raw : List Nat) : Option Nat :=
  match raw with
  | [b1, b2] =>
    match hexDigitVal b1, hexDigitVal b2 with
    | some d1, some d2 => some (16 * d1 + d2)
    | none, some d2 => if b1 = 43 then some d2 else none
    | _, _ => none
  | _ => none

/-- `hex_byte` (codec.rs lines 115-117): `map_opt(take(2), hex_extract)`.
Consumes exactly two bytes and returns the decoded value and remainder. -/
def hex_byte (input : List Nat) : Option (Nat × List Nat) :=
  match input with
  | b1 :: b2 :: rest =>
    match hex_extract [b1, b2] with
    | some v => some (v, rest)
    | none => none
  | _ => none

/-- nom `tag(t)`: the input must start with the literal `t`. -/
def tagP (t : List Nat) (input : List Nat) : Option (List Nat) :=
  if input.take t.length = t then some (input.drop t.length) else none

/-- nom `take(n)`: consume any `n` bytes. -/
def takeP (n : Nat) (input : List Nat) : Option (List Nat) :=
  if n ≤ input.length then some (input.drop n) else none

/-- nom `opt(hex_byte)`: never fails; on parser failure consumes nothing. -/
def opt_hex (input : List Nat) : Option Nat × List Nat :=
  match hex_byte input with
  | some (v, rest) => (some v, rest)
  | none => (none, input)

/-- Greedy repetition of `hex_byte` (the zero-or-more tail of nom
`many1(hex_byte)`). -/
def many0_hex : List Nat → List Nat × List Nat
  | [] => ([], [])
  | [b] => ([], [b])
  | b1 :: b2 :: rest =>
    match hex_extract [b1, b2] with
    | some v =>
      let vr := many0_hex rest
      (v :: vr.1, vr.2)
    | none => ([], b1 :: b2 :: rest)

/-- nom `many1(hex_byte)`: at least one hex byte, then as many as possible. -/
def many1_hex (input : List Nat) : Option (List Nat × List Nat) :=
  match hex_byte input with
  | some (v, rest) =>
    let vr := many0_hex rest
    some (v :: vr.1, vr.2)
  | none => none

/-- ASCII bytes of the literal `"05"`. -/
def TAG05 : List Nat := [48, 53]

/-- ASCII bytes of the literal `"3800"`. -/
def TAG3800 : List Nat := [51, 56, 48, 48]

/-- ASCII bytes of the literal `"86"`. -/
def TAG86 : List Nat := [56, 54]

/-- ASCII bytes of the literal `"00"`. -/
def TAG00 : List Nat := [48, 48]

/-- ASCII bytes of the literal `"4038"`. -/
def TAG4038 : List Nat := [52, 48, 51, 56]

/-- `command_from_parts` (codec.rs lines 119-129), arms in source order;
0x79 = 121, 0x01 = 1, 0x09 = 9. -/
def command_from_parts : Nat × Nat × Nat × Option Nat → Option Message
  | (121, group, _, none) => some (Message.SetVar ⟨group⟩ ON ⟨0⟩)
  | (1, group, _, none) => some (Message.SetVar ⟨group⟩ OFF ⟨0⟩)
  | (9, group, _, none) => some (Message.StopRamp ⟨group⟩)
  | (rate, group, level, some _) =>
    match Ramp.decode rate with
    | some r => some (Message.SetVar ⟨group⟩ ⟨level⟩ r)
    | none => none
  | _ => none

/-- `status_from_parts` (codec.rs lines 131-141): `status.pop()` removes the
final checksum byte; an empty vector yields `None` (unreachable after
`many1`). -/
def status_from_parts : Nat × List Nat → Option Message
  | (offset, status) =>
    match status with
    | [] => none
    | _ :: _ => some (Message.Status ⟨offset⟩ status.dropLast)

/-- Structural part of the command pattern (codec.rs lines 144-150):
`preceded(tuple((tag("05"), take(2), tag("3800"))), tuple((hex_byte,
hex_byte, hex_byte, opt(hex_byte))))`. -/
def command_structural (input : List Nat) :
    Option ((Nat × Nat × Nat × Option Nat) × List Nat) :=
  (tagP TAG05 input).bind fun r1 =>
    (takeP 2 r1).bind fun r2 =>
      (tagP TAG3800 r2).bind fun r3 =>
        (hex_byte r3).bind fun p4 =>
          (hex_byte p4.2).bind fun p5 =>
            (hex_byte p5.2).bind fun p6 =>
              some ((p4.1, p5.1, p6.1, (opt_hex p6.2).1), (opt_hex p6.2).2)

/-- Structural part of the status pattern (codec.rs lines 152-164):
`preceded(tuple((tag("86"), take(4), tag("00"), take(2), tag("4038"))),
tuple((hex_byte, many1(hex_byte))))`. -/
def status_structural (input : List Nat) :
    Option ((Nat × List Nat) × List Nat) :=
  (tagP TAG86 input).bind fun r1 =>
    (takeP 4 r1).bind fun r2 =>
      (tagP TAG00 r2).bind fun r3 =>
        (takeP 2 r3).bind fun r4 =>
          (tagP TAG4038 r4).bind fun r5 =>
            (hex_byte r5).bind fun p6 =>
              (many1_hex p6.2).bind fun p7 =>
                some ((p6.1, p7.1), p7.2)

/-- `command_pattern` (codec.rs lines 144-150): the structural parse mapped
through `command_from_parts`; `map_opt` fails when the mapping yields none. -/
def command_pattern (input : List Nat) : Option (Message × List Nat) :=
  match command_structural input with
  | some (parts, rest) =>
    match command_from_parts parts with
    | some m => some (m, rest)
    | none => none
  | none => none

/-- `status_pattern` (codec.rs lines 152-164). -/
def status_pattern (input : List Nat) : Option (Message × List Nat) :=
  match status_structural input with
  | some (parts, rest) =>
    match status_from_parts parts with
    | some m => some (m, rest)
    | none => none
  | none => none

/-- `alt((command_pattern, status_pattern))` (codec.rs line 166): the status
branch runs only when the command branch fails. -/
def parse_line (input : List Nat) : Option (Message × List Nat) :=
  match command_pattern input with
  | some r => some r
  | none => status_pattern input

/-- `decode` (codec.rs lines 143-174): `all_consuming` of the alternative;
any failure, or leftover input, yields `Unrecognised` of the original bytes. -/
def decode (bytes : List Nat) : Message :=
  match parse_line bytes with
  | some (m, []) => m
  | _ => Message.Unrecognised bytes

/-! ## codec.rs: encode and preamble -/

/-- Uppercase hex digit byte for a value below 16 (Rust `{:02X}`). -/
def hexDigitUpper (d : Nat) : Nat := if d < 10 then 48 + d else 55 + d

/-- Lowercase hex digit byte for a value below 16 (Rust `{:02x}`). -/
def hexDigitLower (d : Nat) : Nat := if d < 10 then 48 + d else 87 + d

/-- Two-digit uppercase hex rendering of a byte value (Rust `{:02X}` on u8). -/
def hexUpper2 (n : Nat) : List Nat := [hexDigitUpper (n / 16), hexDigitUpper (n % 16)]

/-- Two-digit lowercase hex rendering of a byte value (Rust `{:02x}` on u8). -/
def hexLower2 (n : Nat) : List Nat := [hexDigitLower (n / 16), hexDigitLower (n % 16)]

/-- `encode` (codec.rs lines 176-183).  `SetVar` renders
backslash (92), "05380002", group and level in uppercase hex, CR (13) —
the ramp field is discarded.  `SetParam` renders "@A3" (64 65 51), the
parameter and setting in lowercase hex around "00", CR.  `Reset` is the
single tilde byte (126).  All other variants encode to the empty sequence. -/
def encode : Message → List Nat
  | Message.SetVar ⟨g⟩ ⟨l⟩ _ =>
    [92, 48, 53, 51, 56, 48, 48, 48, 50] ++ hexUpper2 g ++ hexUpper2 l ++ [13]
  | Message.SetParam ⟨p⟩ ⟨s⟩ =>
    [64, 65, 51] ++ hexLower2 p ++ [48, 48] ++ hexLower2 s ++ [13]
  | Message.Reset => [126]
  | _ => []

/-- `preamble` (codec.rs lines 185-194): concatenation of the three encoded
initialization messages. -/
def preamble : List Nat :=
  encode Message.Reset
    ++ encode (Message.SetParam OPTIONS3 (Setting.bitor LOCAL_SAL EX_STAT))
    ++ encode (Message.SetParam OPTIONS1
        (Setting.bitor (Setting.bitor (Setting.bitor SMART ID_MON) CONNECT) MONITOR))

/-! ## busio.rs: the framer

The byte stream is embedded as the list of chunks returned by successive
reads; the per-line callback is embedded by collecting, in order, the lines
it is invoked with.  A read that returns zero bytes, or exhaustion of the
chunk list, is end of stream (`read_more` returns an `UnexpectedEof` error
in the source and the framer loop terminates). -/

def LINE_LEN : Nat := 1024

def CHUNK_LEN : Nat := 4096

/-- Position of the first carriage return (13) or line feed (10), the
search performed by nom `not_line_ending`. -/
def findEol : List Nat → Option Nat
  | [] => none
  | b :: rest =>
    if b = 13 ∨ b = 10 then some 0
    else
      match findEol rest with
      | some j => some (j + 1)
      | none => none

/-- `split_line` (busio.rs lines 31-43): nom streaming
`pair(not_line_ending, line_ending)`.  The content runs up to the first CR
or LF byte.  A LF terminator is one byte; a CR terminator must be followed
by LF and both are consumed.  A CR at the end of the buffer is an
incomplete parse and a CR followed by anything other than LF is a parse
error; in both cases `split_line` yields nothing and the buffer is left
unchanged.  A bare CR is never consumed as a terminator. -/
def split_line (buf : List Nat) : Option (List Nat × List Nat) :=
  match findEol buf with
  | none => none
  | some i =>
    match buf.drop i with
    | 10 :: tail => some (buf.take i, tail)
    | 13 :: 10 :: tail => some (buf.take i, tail)
    | _ => none

/-- `emit_lines` (busio.rs lines 61-71): repeatedly split lines off the
front of the buffer, invoking the callback on each line no longer than
`LINE_LEN`; returns the delivered lines and the final buffer remainder. -/
def emit_lines (buf : List Nat) : List (List Nat) × List Nat :=
  match h : split_line buf with
  | some lr =>
    let er := emit_lines lr.2
    (if lr.1.length ≤ LINE_LEN then lr.1 :: er.1 else er.1, er.2)
  | none => ([], buf)
termination_by buf.length
decreasing_by
  have hfind : ∀ (l : List Nat) (i : Nat), findEol l = some i → i < l.length := by
    intro l
    induction l with
    | nil => intro i hi; cases hi
    | cons b rest ih =>
      intro i hi
      rw [findEol] at hi
      by_cases hb : b = 13 ∨ b = 10
      · rw [if_pos hb] at hi
        cases hi
        simp
      · rw [if_neg hb] at hi
        cases hj : findEol rest with
        | none => rw [hj] at hi; cases hi
        | some j =>
          rw [hj] at hi
          cases hi
          have := ih j hj
          simp
          omega
  obtain ⟨line, rest⟩ := lr
  unfold split_line at h
  cases he : findEol buf with
  | none => simp [he] at h
  | some i =>
    have hi := hfind buf i he
    have hd : (buf.drop i).length = buf.length - i := by simp
    simp only [he] at h
    cases hdrop : buf.drop i with
    | nil => simp [hdrop] at h
    | cons b tail =>
      rw [hdrop] at hd
      by_cases hb : b = 10
      · subst hb
        simp [hdrop] at h
        obtain ⟨-, rfl⟩ := h
        simp only [List.length_cons] at hd
        simp only [List.length_cons]
        omega
      · cases tail with
        | nil =>
          rw [hdrop] at h
          rcases Nat.decEq b 13 with h13 | h13 <;> simp [h13, hb] at h
        | cons b2 tail2 =>
          rw [hdrop] at h
          by_cases h13 : b = 13
          · subst h13
            by_cases h10 : b2 = 10
            · simp [h10] at h hd
              obtain ⟨-, rfl⟩ := h
              simp only [List.length_cons] at hd ⊢
              omega
            · simp [hb, h10] at h
          · simp [hb, h13] at h

def read_more (chunks : List (List Nat)) : Option (List Nat × List (List Nat)) :=
  match chunks with
  | [] => none
  | c :: cs => if c.length = 0 then none else some (c, cs)

/-- `drop_long_line` (busio.rs lines 46-58): clear the buffer, read a fresh
chunk, and repeat until a line can be split from the freshly read chunk;
that line is discarded and the remainder after its terminator is kept. -/
def drop_long_line : List (List Nat) → Option (List Nat × List (List Nat))
  | [] => none
  | c :: cs =>
    if c.length = 0 then none
    else
      match split_line c with
      | some lr => some (lr.2, cs)
      | none => drop_long_line cs


/-- The loop of `read_lines` (busio.rs lines 85-105), entered at the point
where the inner `while buf.len() > LINE_LEN` condition is tested, advancing
one read per step.  When the unterminated remainder is oversized the framer
is inside `drop_long_line`: the buffer is cleared and refilled with the
fresh chunk, which is discarded whole unless a line can be split off it, in
which case the remainder of the discarded line becomes the buffer and normal
emission resumes (the oversized `buf` is retained untouched as the marker
that dropping continues — only the fact that its length exceeds `LINE_LEN`
is ever consulted).  Otherwise a fresh chunk is appended to the buffer and
its complete lines emitted.  End of stream ends the loop with the lines
delivered so far.  `framer_go_drop_eq` below recovers the nested form of the source, the
`drop_long_line` loop from this one-read-per-step form. -/
def framer_go : List (List Nat) → List Nat → List (List Nat)
  | [], _ => []
  | c :: cs, buf =>
    if c.length = 0 then []
    else if LINE_LEN < buf.length then
      match split_line c with
      | none => framer_go cs buf
      | some lr =>
        let er := emit_lines lr.2
        er.1 ++ framer_go cs er.2
    else
      let er := emit_lines (buf ++ c)
      er.1 ++ framer_go cs er.2

/-- `read_lines` (busio.rs lines 85-105): run the framer over the chunk
stream starting from an empty buffer; the result is the list of lines the
callback is invoked with, in order. -/
def read_lines (chunks : List (List Nat)) : List (List Nat) :=
  framer_go chunks []


/-! ### Line-splitting characterization -/

/-- The byte list contains no line-terminator byte (CR 13 or LF 10). -/
def noEol (l : List Nat) : Prop := ∀ b ∈ l, b ≠ 13 ∧ b ≠ 10

instance (l : List Nat) : Decidable (noEol l) := by
  unfold noEol
  infer_instance


/-! ## server.rs and gaffer.rs: events and the reactor -/

/-- The `Post` operator-command type (server.rs lines 8-12). -/
inductive Post where
  | Level : Lights.Group → Lights.Level → Lights.Ramp → Post
  | On : String → Post
  | Off : String → Post
deriving DecidableEq

/-- The `Event` type: its two variants `Cbus(Message)` and `Hmi(Post)` are
exactly the arms of the exhaustive match in `gaffer_daemon` (gaffer.rs
lines 14-17). -/
inductive Event where
  | Cbus : Message → Event
  | Hmi : Post → Event
deriving DecidableEq

/-- `react_to_hmi` (gaffer.rs lines 24-33), with the messages sent to the
outbound bus collected as a list: a `Level` post passes through as a
`SetVar`; every other post sends nothing. -/
def react_to_hmi : Post → List Message
  | Post.Level g l r => [Message.SetVar g l r]
  | _ => []

/-- `react_to_cbus` (gaffer.rs lines 35-40): both match arms do nothing;
no message is ever sent. -/
def react_to_cbus : Message → List Message
  | Message.SetVar _ _ _ => []
  | _ => []

/-- The per-event dispatch of `gaffer_daemon` (gaffer.rs lines 14-17). -/
def gaffer_react : Event → List Message
  | Event.Cbus message => react_to_cbus message
  | Event.Hmi post => react_to_hmi post

/-! ## Supporting lemmas -/

/-! ### Parser lemmas -/

theorem hex_byte_length {input : List Nat} {p : Nat × List Nat}
    (h : hex_byte input = some p) : input.length = 2 + p.2.length := by
  cases input with
  | nil => cases h
  | cons b1 t1 =>
    cases t1 with
    | nil => cases h
    | cons b2 rest2 =>
      simp only [hex_byte] at h
      cases hx : hex_extract [b1, b2] with
      | none => rw [hx] at h; cases h
      | some w =>
        rw [hx] at h
        cases h
        simp only [List.length_cons]
        omega

theorem tagP_length {t input rest : List Nat} (h : tagP t input = some rest) :
    input.length = t.length + rest.length := by
  unfold tagP at h
  by_cases hc : input.take t.length = t
  · rw [if_pos hc] at h
    cases h
    have hle : t.length ≤ input.length := by
      have := congrArg List.length hc
      simp only [List.length_take] at this
      omega
    simp only [List.length_drop]
    omega
  · rw [if_neg hc] at h
    cases h

theorem takeP_length {input rest : List Nat} {n : Nat}
    (h : takeP n input = some rest) : input.length = n + rest.length := by
  unfold takeP at h
  by_cases hc : n ≤ input.length
  · rw [if_pos hc] at h
    cases h
    simp only [List.length_drop]
    omega
  · rw [if_neg hc] at h
    cases h

theorem many0_hex_length (input : List Nat) :
    ∃ k, input.length = 2 * k + (many0_hex input).2.length := by
  induction input using many0_hex.induct with
  | case1 => exact ⟨0, rfl⟩
  | case2 b => exact ⟨0, rfl⟩
  | case3 b1 b2 rest v hx ih =>
    obtain ⟨k, hk⟩ := ih
    refine ⟨k + 1, ?_⟩
    simp only [many0_hex, hx]
    simp only [List.length_cons]
    omega
  | case4 b1 b2 rest hx =>
    refine ⟨0, ?_⟩
    simp only [many0_hex, hx]
    omega

theorem many1_hex_length {input : List Nat} {p : List Nat × List Nat}
    (h : many1_hex input = some p) :
    ∃ k, input.length = 2 * k + p.2.length := by
  unfold many1_hex at h
  cases hb : hex_byte input with
  | none => rw [hb] at h; cases h
  | some vr =>
    obtain ⟨v, r⟩ := vr
    rw [hb] at h
    cases h
    have h2 := hex_byte_length hb
    obtain ⟨k, hk⟩ := many0_hex_length r
    exact ⟨k + 1, by simp only [] at h2 ⊢; omega⟩

theorem opt_hex_length (input : List Nat) :
    ∃ k, input.length = 2 * k + (opt_hex input).2.length := by
  cases hb : hex_byte input with
  | none => exact ⟨0, by simp [opt_hex, hb]⟩
  | some vr =>
    obtain ⟨v, r⟩ := vr
    have h2 := hex_byte_length hb
    refine ⟨1, ?_⟩
    simp only [opt_hex, hb]
    simp only [] at h2
    omega

/-- Every successful structural command parse consumes an even number of
bytes. -/
theorem command_structural_length {bs rest : List Nat}
    {parts : Nat × Nat × Nat × Option Nat}
    (h : command_structural bs = some (parts, rest)) :
    ∃ k, bs.length = 2 * k + rest.length := by
  unfold command_structural at h
  cases h1 : tagP TAG05 bs with
  | none => rw [h1] at h; cases h
  | some r1 =>
    rw [h1] at h
    simp only [Option.some_bind] at h
    cases h2 : takeP 2 r1 with
    | none => rw [h2] at h; cases h
    | some r2 =>
      rw [h2] at h
      simp only [Option.some_bind] at h
      cases h3 : tagP TAG3800 r2 with
      | none => rw [h3] at h; cases h
      | some r3 =>
        rw [h3] at h
        simp only [Option.some_bind] at h
        cases h4 : hex_byte r3 with
        | none => rw [h4] at h; cases h
        | some p4 =>
          rw [h4] at h
          simp only [Option.some_bind] at h
          cases h5 : hex_byte p4.2 with
          | none => rw [h5] at h; cases h
          | some p5 =>
            rw [h5] at h
            simp only [Option.some_bind] at h
            cases h6 : hex_byte p5.2 with
            | none => rw [h6] at h; cases h
            | some p6 =>
              rw [h6] at h
              simp only [Option.some_bind, Option.some.injEq, Prod.mk.injEq] at h
              obtain ⟨-, hrest⟩ := h
              have l1 := tagP_length h1
              have l2 := takeP_length h2
              have l3 := tagP_length h3
              have l4 := hex_byte_length h4
              have l5 := hex_byte_length h5
              have l6 := hex_byte_length h6
              obtain ⟨k, hk⟩ := opt_hex_length p6.2
              refine ⟨k + 7, ?_⟩
              rw [← hrest]
              simp only [TAG05, TAG3800, List.length_cons, List.length_nil] at l1 l3
              omega

/-- Every successful structural status parse consumes an even number of
bytes. -/
theorem status_structural_length {bs rest : List Nat} {parts : Nat × List Nat}
    (h : status_structural bs = some (parts, rest)) :
    ∃ k, bs.length = 2 * k + rest.length := by
  unfold status_structural at h
  cases h1 : tagP TAG86 bs with
  | none => rw [h1] at h; cases h
  | some r1 =>
    rw [h1] at h
    simp only [Option.some_bind] at h
    cases h2 : takeP 4 r1 with
    | none => rw [h2] at h; cases h
    | some r2 =>
      rw [h2] at h
      simp only [Option.some_bind] at h
      cases h3 : tagP TAG00 r2 with
      | none => rw [h3] at h; cases h
      | some r3 =>
        rw [h3] at h
        simp only [Option.some_bind] at h
        cases h4 : takeP 2 r3 with
        | none => rw [h4] at h; cases h
        | some r4 =>
          rw [h4] at h
          simp only [Option.some_bind] at h
          cases h5 : tagP TAG4038 r4 with
          | none => rw [h5] at h; cases h
          | some r5 =>
            rw [h5] at h
            simp only [Option.some_bind] at h
            cases h6 : hex_byte r5 with
            | none => rw [h6] at h; cases h
            | some p6 =>
              rw [h6] at h
              simp only [Option.some_bind] at h
              cases h7 : many1_hex p6.2 with
              | none => rw [h7] at h; cases h
              | some p7 =>
                rw [h7] at h
                simp only [Option.some_bind, Option.some.injEq, Prod.mk.injEq] at h
                obtain ⟨-, hrest⟩ := h
                have l1 := tagP_length h1
                have l2 := takeP_length h2
                have l3 := tagP_length h3
                have l4 := takeP_length h4
                have l5 := tagP_length h5
                have l6 := hex_byte_length h6
                obtain ⟨k, hk⟩ := many1_hex_length h7
                refine ⟨k + 8, ?_⟩
                rw [← hrest]
                simp only [TAG86, TAG00, TAG4038, List.length_cons, List.length_nil] at l1 l3 l5
                omega

/-- A successful structural command parse means the input began with the
tag bytes of `"05"`. -/
theorem command_structural_take05 {bs rest : List Nat}
    {parts : Nat × Nat × Nat × Option Nat}
    (h : command_structural bs = some (parts, rest)) : bs.take 2 = TAG05 := by
  unfold command_structural at h
  cases h1 : tagP TAG05 bs with
  | none => rw [h1] at h; cases h
  | some r1 =>
    unfold tagP at h1
    by_cases hc : bs.take TAG05.length = TAG05
    · rw [show TAG05.length = 2 from rfl] at hc
      exact hc
    · rw [if_neg hc] at h1
      cases h1

/-- A successful structural status parse means the input began with the
tag bytes of `"86"`. -/
theorem status_structural_take86 {bs rest : List Nat} {parts : Nat × List Nat}
    (h : status_structural bs = some (parts, rest)) : bs.take 2 = TAG86 := by
  unfold status_structural at h
  cases h1 : tagP TAG86 bs with
  | none => rw [h1] at h; cases h
  | some r1 =>
    unfold tagP at h1
    by_cases hc : bs.take TAG86.length = TAG86
    · rw [show TAG86.length = 2 from rfl] at hc
      exact hc
    · rw [if_neg hc] at h1
      cases h1

theorem status_structural_none_of_05 {bs : List Nat} (h : bs.take 2 = TAG05) :
    status_structural bs = none := by
  unfold status_structural tagP
  have hne : bs.take TAG86.length ≠ TAG86 := by
    intro hc
    rw [show TAG86.length = 2 from rfl, h] at hc
    cases hc
  rw [if_neg hne]
  rfl

theorem command_structural_none_of_86 {bs : List Nat} (h : bs.take 2 = TAG86) :
    command_structural bs = none := by
  unfold command_structural tagP
  have hne : bs.take TAG05.length ≠ TAG05 := by
    intro hc
    rw [show TAG05.length = 2 from rfl, h] at hc
    cases hc
  rw [if_neg hne]
  rfl

theorem many1_hex_ne_nil {input : List Nat} {p : List Nat × List Nat}
    (h : many1_hex input = some p) : p.1 ≠ [] := by
  unfold many1_hex at h
  cases hb : hex_byte input with
  | none => rw [hb] at h; cases h
  | some vr =>
    obtain ⟨v, r⟩ := vr
    rw [hb] at h
    cases h
    simp

/-- The repetition field of a successful structural status parse is
nonempty (`many1` demands at least one element). -/
theorem status_structural_vals_ne_nil {bs : List Nat} {parts : Nat × List Nat}
    {rest : List Nat} (h : status_structural bs = some (parts, rest)) :
    parts.2 ≠ [] := by
  unfold status_structural at h
  cases h1 : tagP TAG86 bs with
  | none => rw [h1] at h; cases h
  | some r1 =>
    rw [h1] at h
    simp only [Option.some_bind] at h
    cases h2 : takeP 4 r1 with
    | none => rw [h2] at h; cases h
    | some r2 =>
      rw [h2] at h
      simp only [Option.some_bind] at h
      cases h3 : tagP TAG00 r2 with
      | none => rw [h3] at h; cases h
      | some r3 =>
        rw [h3] at h
        simp only [Option.some_bind] at h
        cases h4 : takeP 2 r3 with
        | none => rw [h4] at h; cases h
        | some r4 =>
          rw [h4] at h
          simp only [Option.some_bind] at h
          cases h5 : tagP TAG4038 r4 with
          | none => rw [h5] at h; cases h
          | some r5 =>
            rw [h5] at h
            simp only [Option.some_bind] at h
            cases h6 : hex_byte r5 with
            | none => rw [h6] at h; cases h
            | some p6 =>
              rw [h6] at h
              simp only [Option.some_bind] at h
              cases h7 : many1_hex p6.2 with
              | none => rw [h7] at h; cases h
              | some p7 =>
                rw [h7] at h
                simp only [Option.some_bind, Option.some.injEq, Prod.mk.injEq] at h
                obtain ⟨hp, -⟩ := h
                have := many1_hex_ne_nil h7
                rw [← hp]
                exact this

/-- Inversion of the command branch of the alternative. -/
theorem command_pattern_inv {bs : List Nat} {m : Message} {rest : List Nat}
    (h : command_pattern bs = some (m, rest)) :
    ∃ parts, command_structural bs = some (parts, rest) ∧
      command_from_parts parts = some m := by
  unfold command_pattern at h
  split at h
  · rename_i parts rest2 heq
    split at h
    · rename_i m2 hcf
      cases h
      exact ⟨parts, heq, hcf⟩
    · cases h
  · cases h

/-- Inversion of the status branch of the alternative. -/
theorem status_pattern_inv {bs : List Nat} {m : Message} {rest : List Nat}
    (h : status_pattern bs = some (m, rest)) :
    ∃ parts, status_structural bs = some (parts, rest) ∧
      status_from_parts parts = some m := by
  unfold status_pattern at h
  split at h
  · rename_i parts rest2 heq
    split at h
    · rename_i m2 hcf
      cases h
      exact ⟨parts, heq, hcf⟩
    · cases h
  · cases h

/-- The mapping functions never manufacture an `Unrecognised` message. -/
theorem command_from_parts_not_unrecognised
    {parts : Nat × Nat × Nat × Option Nat} {m : Message}
    (h : command_from_parts parts = some m) : ∀ b, m ≠ Message.Unrecognised b := by
  intro b
  unfold command_from_parts at h
  split at h
  · cases h; simp
  · cases h; simp
  · cases h; simp
  · split at h
    · cases h; simp
    · cases h
  · cases h

theorem status_from_parts_not_unrecognised
    {parts : Nat × List Nat} {m : Message}
    (h : status_from_parts parts = some m) : ∀ b, m ≠ Message.Unrecognised b := by
  intro b
  obtain ⟨offset, status⟩ := parts
  cases status with
  | nil => cases h
  | cons v vs =>
    cases h
    simp

/-- A successful parse consumes an even number of bytes relative to the
remainder. -/
theorem parse_line_length {bs : List Nat} {m : Message} {rest : List Nat}
    (h : parse_line bs = some (m, rest)) :
    ∃ k, bs.length = 2 * k + rest.length := by
  unfold parse_line at h
  cases hc : command_pattern bs with
  | some pr =>
    rw [hc] at h
    cases h
    obtain ⟨parts, hs, -⟩ := command_pattern_inv hc
    exact command_structural_length hs
  | none =>
    rw [hc] at h
    obtain ⟨parts, hs, -⟩ := status_pattern_inv h
    exact status_structural_length hs

theorem parse_line_not_unrecognised {bs : List Nat} {m : Message}
    {rest : List Nat} (h : parse_line bs = some (m, rest)) :
    ∀ b, m ≠ Message.Unrecognised b := by
  unfold parse_line at h
  cases hc : command_pattern bs with
  | some pr =>
    rw [hc] at h
    cases h
    obtain ⟨parts, -, hf⟩ := command_pattern_inv hc
    exact command_from_parts_not_unrecognised hf
  | none =>
    rw [hc] at h
    obtain ⟨parts, -, hf⟩ := status_pattern_inv h
    exact status_from_parts_not_unrecognised hf

/-- `decode` characterized on a successful all-consuming structural
command parse: the message is dictated by `command_from_parts`, and its
failure sends the whole line to `Unrecognised` (the status branch cannot
rescue it because the line starts with `"05"`, not `"86"`). -/
theorem decode_of_command_structural {bs : List Nat}
    {parts : Nat × Nat × Nat × Option Nat}
    (h : command_structural bs = some (parts, [])) :
    decode bs =
      match command_from_parts parts with
      | some m => m
      | none => Message.Unrecognised bs := by
  have hcp : command_pattern bs =
      (match command_from_parts parts with
        | some m => some (m, ([] : List Nat))
        | none => none) := by
    unfold command_pattern
    rw [h]
  cases hf : command_from_parts parts with
  | some m =>
    unfold decode parse_line
    rw [hcp, hf]
  | none =>
    have hsp : status_pattern bs = none := by
      unfold status_pattern
      rw [status_structural_none_of_05 (command_structural_take05 h)]
    unfold decode parse_line
    rw [hcp, hf, hsp]

/-- `decode` on a structural command parse with leftover input: regardless
of the mapping result the line is `Unrecognised` (`all_consuming`
rejects, and the status branch requires the `"86"` tag). -/
theorem decode_of_command_leftover {bs : List Nat}
    {parts : Nat × Nat × Nat × Option Nat} {r : Nat} {rs : List Nat}
    (h : command_structural bs = some (parts, r :: rs)) :
    decode bs = Message.Unrecognised bs := by
  have hcp : command_pattern bs =
      (match command_from_parts parts with
        | some m => some (m, r :: rs)
        | none => none) := by
    unfold command_pattern
    rw [h]
  cases hf : command_from_parts parts with
  | some m =>
    unfold decode parse_line
    rw [hcp, hf]
  | none =>
    have hsp : status_pattern bs = none := by
      unfold status_pattern
      rw [status_structural_none_of_05 (command_structural_take05 h)]
    unfold decode parse_line
    rw [hcp, hf, hsp]

/-- `decode` characterized on a successful all-consuming structural status
parse: the checksum byte is popped and the rest is the status payload. -/
theorem decode_of_status_structural {bs : List Nat} {offset : Nat}
    {vals : List Nat}
    (h : status_structural bs = some ((offset, vals), [])) :
    decode bs = Message.Status ⟨offset⟩ vals.dropLast := by
  have hne : vals ≠ [] := by
    have := status_structural_vals_ne_nil h
    simpa using this
  have hcp : command_pattern bs = none := by
    unfold command_pattern
    rw [command_structural_none_of_86 (status_structural_take86 h)]
  have hsp : status_pattern bs =
      some (Message.Status ⟨offset⟩ vals.dropLast, ([] : List Nat)) := by
    unfold status_pattern
    rw [h]
    cases vals with
    | nil => exact absurd rfl hne
    | cons v vs => rfl
  unfold decode parse_line
  rw [hcp, hsp]

/-- Failed parses yield `Unrecognised` of the original input. -/
theorem decode_of_parse_fail {bs : List Nat} (h : parse_line bs = none) :
    decode bs = Message.Unrecognised bs := by
  unfold decode
  rw [h]

/-- Whenever `decode` returns `Unrecognised`, it carries exactly the
original input bytes. -/
theorem decode_unrecognised_original {bs m : List Nat}
    (h : decode bs = Message.Unrecognised m) : m = bs := by
  unfold decode at h
  cases hp : parse_line bs with
  | none => rw [hp] at h; cases h; rfl
  | some pr =>
    obtain ⟨msg, rest⟩ := pr
    rw [hp] at h
    cases rest with
    | nil =>
      exact absurd h (parse_line_not_unrecognised hp m)
    | cons r rs => cases h; rfl

/-- Odd-length input never parses: both grammar branches consume bytes two
at a time. -/
theorem decode_of_odd_length {bs : List Nat} (h : Odd bs.length) :
    decode bs = Message.Unrecognised bs := by
  unfold decode
  cases hp : parse_line bs with
  | none => rfl
  | some pr =>
    obtain ⟨msg, rest⟩ := pr
    cases rest with
    | nil =>
      obtain ⟨k, hk⟩ := parse_line_length hp
      exfalso
      obtain ⟨j, hj⟩ := h
      simp only [List.length_nil] at hk
      omega
    | cons r rs => rfl

theorem findEol_lt_length {buf : List Nat} {i : Nat} (h : findEol buf = some i) :
    i < buf.length := by
  induction buf generalizing i with
  | nil => simp [findEol] at h
  | cons b rest ih =>
    rw [findEol] at h
    by_cases hb : b = 13 ∨ b = 10
    · rw [if_pos hb] at h
      simp only [Option.some.injEq] at h
      simp only [List.length_cons]
      omega
    · rw [if_neg hb] at h
      cases hj : findEol rest with
      | none => rw [hj] at h; exact absurd h (by simp)
      | some j =>
        rw [hj] at h
        simp only [Option.some.injEq] at h
        have := ih hj
        simp only [List.length_cons]
        omega

theorem split_line_rest_lt {buf line rest : List Nat}
    (h : split_line buf = some (line, rest)) : rest.length < buf.length := by
  unfold split_line at h
  cases he : findEol buf with
  | none => simp [he] at h
  | some i =>
    have hi := findEol_lt_length he
    have hd : (buf.drop i).length = buf.length - i := by simp
    simp only [he] at h
    cases hdrop : buf.drop i with
    | nil => simp [hdrop] at h
    | cons b tail =>
      rw [hdrop] at hd
      by_cases hb : b = 10
      · subst hb
        simp [hdrop] at h
        obtain ⟨-, rfl⟩ := h
        simp at hd
        omega
      · cases tail with
        | nil =>
          rw [hdrop] at h
          rcases Nat.decEq b 13 with h13 | h13 <;> simp [h13, hb] at h
        | cons b2 tail2 =>
          rw [hdrop] at h
          by_cases h13 : b = 13
          · subst h13
            by_cases h10 : b2 = 10
            · subst h10
              simp at h hd
              obtain ⟨-, rfl⟩ := h
              simp at hd ⊢
              omega
            · simp [hb, h10] at h
          · simp [hb, h13] at h


/-! ### Framer unfolding lemmas -/

theorem emit_lines_of_none {buf : List Nat} (h : split_line buf = none) :
    emit_lines buf = ([], buf) := by
  rw [emit_lines]
  split
  · next lr heq => rw [h] at heq; cases heq
  · rfl

theorem emit_lines_of_some {buf line rest : List Nat}
    (h : split_line buf = some (line, rest)) :
    emit_lines buf =
      ((if line.length ≤ LINE_LEN then line :: (emit_lines rest).1
        else (emit_lines rest).1), (emit_lines rest).2) := by
  rw [emit_lines]
  split
  · next lr heq =>
      rw [h] at heq
      cases heq
      rfl
  · next heq => rw [h] at heq; cases heq

/-- With an oversized buffer, the one-read-per-step loop of `framer_go` is
exactly the nested `drop_long_line` loop of the source followed by emission. -/
theorem framer_go_drop_eq {chunks : List (List Nat)} {buf : List Nat}
    (hb : LINE_LEN < buf.length) :
    framer_go chunks buf =
      match drop_long_line chunks with
      | none => []
      | some rc => (emit_lines rc.1).1 ++ framer_go rc.2 (emit_lines rc.1).2 := by
  induction chunks with
  | nil => rfl
  | cons c cs ih =>
    rw [framer_go]
    by_cases hc : c.length = 0
    · simp [hc, drop_long_line]
    · rw [if_neg hc, if_pos hb]
      cases hs : split_line c with
      | none =>
        rw [ih]
        simp [drop_long_line, hc, hs]
      | some lr => simp [drop_long_line, hc, hs]


theorem findEol_of_noEol {l : List Nat} (h : noEol l) : findEol l = none := by
  induction l with
  | nil => rfl
  | cons b rest ih =>
    have hb := h b (by simp)
    rw [findEol]
    have : ¬(b = 13 ∨ b = 10) := by
      rintro (rfl | rfl)
      · exact hb.1 rfl
      · exact hb.2 rfl
    rw [if_neg this, ih fun x hx => h x (by simp [hx])]

theorem findEol_append_eol {c : List Nat} {t : Nat} (hc : noEol c)
    (ht : t = 13 ∨ t = 10) (r : List Nat) :
    findEol (c ++ t :: r) = some c.length := by
  induction c with
  | nil => simp [findEol, ht]
  | cons b rest ih =>
    have hb := hc b (by simp)
    have hbne : ¬(b = 13 ∨ b = 10) := by
      rintro (rfl | rfl)
      · exact hb.1 rfl
      · exact hb.2 rfl
    rw [List.cons_append, findEol, if_neg hbne,
      ih fun x hx => hc x (by simp [hx])]
    simp

theorem split_line_of_noEol {l : List Nat} (h : noEol l) : split_line l = none := by
  rw [split_line, findEol_of_noEol h]

theorem split_line_lf {c : List Nat} (hc : noEol c) (r : List Nat) :
    split_line (c ++ 10 :: r) = some (c, r) := by
  rw [split_line, findEol_append_eol hc (Or.inr rfl) r]
  simp only [List.drop_left, List.take_left]

theorem split_line_crlf {c : List Nat} (hc : noEol c) (r : List Nat) :
    split_line (c ++ 13 :: 10 :: r) = some (c, r) := by
  rw [split_line, findEol_append_eol hc (Or.inl rfl) (10 :: r)]
  simp only [List.drop_left, List.take_left]

theorem split_line_cr_last {c : List Nat} (hc : noEol c) :
    split_line (c ++ [13]) = none := by
  rw [split_line, findEol_append_eol hc (Or.inl rfl) []]
  simp only [List.drop_left]

theorem split_line_cr_mid {c : List Nat} (hc : noEol c) {x : Nat}
    (hx : x ≠ 10) (r : List Nat) :
    split_line (c ++ 13 :: x :: r) = none := by
  rw [split_line, findEol_append_eol hc (Or.inl rfl) (x :: r)]
  simp only [List.drop_left]
  simp [hx]


/-! ### Framer delivery bound -/

theorem emit_lines_le_aux :
    ∀ (n : Nat) (buf : List Nat), buf.length ≤ n →
      ∀ line ∈ (emit_lines buf).1, line.length ≤ LINE_LEN := by
  intro n
  induction n with
  | zero =>
    intro buf hlen line hmem
    have hb : buf = [] := List.length_eq_zero.mp (Nat.le_zero.mp hlen)
    subst hb
    have h0 : split_line ([] : List Nat) = none := rfl
    rw [emit_lines_of_none h0] at hmem
    cases hmem
  | succ n ih =>
    intro buf hlen line hmem
    cases hs : split_line buf with
    | none =>
      rw [emit_lines_of_none hs] at hmem
      cases hmem
    | some lr =>
      obtain ⟨l, r⟩ := lr
      rw [emit_lines_of_some hs] at hmem
      have hr : r.length ≤ n := by
        have := split_line_rest_lt hs
        omega
      by_cases hl : l.length ≤ LINE_LEN
      · rw [if_pos hl] at hmem
        cases hmem with
        | head => exact hl
        | tail _ hm => exact ih r hr line hm
      · rw [if_neg hl] at hmem
        exact ih r hr line hmem

/-- No line delivered by `emit_lines` exceeds `LINE_LEN`. -/
theorem emit_lines_le {buf line : List Nat} (h : line ∈ (emit_lines buf).1) :
    line.length ≤ LINE_LEN :=
  emit_lines_le_aux buf.length buf (Nat.le_refl _) line h

/-- No line delivered by the framer loop exceeds `LINE_LEN`. -/
theorem framer_go_le :
    ∀ (chunks : List (List Nat)) (buf : List Nat),
      ∀ line ∈ framer_go chunks buf, line.length ≤ LINE_LEN := by
  intro chunks
  induction chunks with
  | nil =>
    intro buf line hmem
    cases hmem
  | cons c cs ih =>
    intro buf line hmem
    rw [framer_go] at hmem
    by_cases hc : c.length = 0
    · rw [if_pos hc] at hmem
      cases hmem
    · rw [if_neg hc] at hmem
      by_cases hb : LINE_LEN < buf.length
      · rw [if_pos hb] at hmem
        cases hs : split_line c with
        | none =>
          rw [hs] at hmem
          exact ih buf line hmem
        | some lr =>
          rw [hs] at hmem
          simp only [List.mem_append] at hmem
          cases hmem with
          | inl hm => exact emit_lines_le hm
          | inr hm => exact ih _ line hm
      · rw [if_neg hb] at hmem
        simp only [List.mem_append] at hmem
        cases hmem with
        | inl hm => exact emit_lines_le hm
        | inr hm => exact ih _ line hm


/-! ### Ramp table lemmas -/

theorem rampLookup_mem {l : List (Nat × Nat)} {code : Nat} {r : Ramp}
    (h : rampLookup l code = some r) : (code, r.seconds) ∈ l := by
  induction l with
  | nil => cases h
  | cons p rest ih =>
    obtain ⟨c, s⟩ := p
    rw [rampLookup] at h
    by_cases hc : c = code
    · rw [if_pos hc] at h
      cases h
      subst hc
      simp
    · rw [if_neg hc] at h
      simp [ih h]

theorem rampLookup_of_mem {l : List (Nat × Nat)} {code s : Nat}
    (hnd : (l.map Prod.fst).Nodup) (hm : (code, s) ∈ l) :
    rampLookup l code = some ⟨s⟩ := by
  induction l with
  | nil => cases hm
  | cons p rest ih =>
    obtain ⟨c, t⟩ := p
    rw [rampLookup]
    simp only [List.map_cons, List.nodup_cons] at hnd
    rcases List.mem_cons.mp hm with he | hm2
    · cases he
      rw [if_pos rfl]
    · by_cases hc : c = code
      · exfalso
        subst hc
        exact hnd.1 (List.mem_map.mpr ⟨(c, s), hm2, rfl⟩)
      · rw [if_neg hc]
        exact ih hnd.2 hm2

theorem rampLookup_none_iff {l : List (Nat × Nat)} {code : Nat} :
    rampLookup l code = none ↔ code ∉ l.map Prod.fst := by
  induction l with
  | nil => simp [rampLookup]
  | cons p rest ih =>
    obtain ⟨c, s⟩ := p
    rw [rampLookup]
    by_cases hc : c = code
    · subst hc
      simp
    · rw [if_neg hc]
      simp [ih, hc, Ne.symm hc]

/-- Encoding a request of at most 1020 seconds and decoding the resulting
code yields the least table duration bounding the request. -/
theorem ramp_roundtrip_le (secs : Nat) (h : secs ≤ 1020) :
    ∃ s2, (Ramp.decode (Ramp.encode ⟨secs⟩)).map Ramp.seconds = some s2 ∧
      secs ≤ s2 ∧ ∀ t ∈ RAMP_CODES.map Prod.snd, secs ≤ t → s2 ≤ t := by
  have key : ∀ fs : Fin 1021,
      ((Ramp.decode (Ramp.encode ⟨fs.1⟩)).map Ramp.seconds).isSome = true ∧
      fs.1 ≤ ((Ramp.decode (Ramp.encode ⟨fs.1⟩)).map Ramp.seconds).getD 0 ∧
      ∀ t ∈ RAMP_CODES.map Prod.snd, fs.1 ≤ t →
        ((Ramp.decode (Ramp.encode ⟨fs.1⟩)).map Ramp.seconds).getD 0 ≤ t := by
    decide
  have k := key ⟨secs, by omega⟩
  obtain ⟨hs, hle, hmin⟩ := k
  obtain ⟨s2, hs2⟩ := Option.isSome_iff_exists.mp hs
  refine ⟨s2, hs2, ?_, ?_⟩
  · have h2 := hle
    rw [hs2] at h2
    simpa using h2
  · intro t ht hle2
    have h3 := hmin t ht hle2
    rw [hs2] at h3
    simpa using h3

theorem rampEncodeLoop_all_lt {l : List (Nat × Nat)} {secs : Nat}
    (h : ∀ p ∈ l, p.2 < secs) : rampEncodeLoop l secs = 122 := by
  induction l with
  | nil => rfl
  | cons p rest ih =>
    obtain ⟨c, s⟩ := p
    rw [rampEncodeLoop]
    have hns : ¬ secs ≤ s := by
      have := h (c, s) (by simp)
      simp at this
      omega
    rw [if_neg hns]
    exact ih fun q hq => h q (by simp [hq])

/-- Requests beyond the largest table duration clamp to the 1020s entry. -/
theorem ramp_encode_above (secs : Nat) (h : 1020 < secs) :
    Ramp.decode (Ramp.encode ⟨secs⟩) = some ⟨1020⟩ := by
  have henc : Ramp.encode ⟨secs⟩ = 122 := by
    apply rampEncodeLoop_all_lt
    intro p hp
    simp only [RAMP_CODES, List.mem_cons, List.not_mem_nil, or_false] at hp
    rcases hp with rfl|rfl|rfl|rfl|rfl|rfl|rfl|rfl|rfl|rfl|rfl|rfl|rfl|rfl|rfl|rfl <;>
      simp <;> omega
  rw [henc]
  decide

/-! ### command_from_parts on symbolic arguments -/

/-- With a checksum byte present, the first three match arms (which demand
its absence) cannot fire: the result is dictated by the ramp-table lookup
of the rate, whatever the rate is. -/
theorem command_from_parts_some_check (rate group level c : Nat) :
    command_from_parts (rate, group, level, some c) =
      match Ramp.decode rate with
      | some r => some (Message.SetVar ⟨group⟩ ⟨level⟩ r)
      | none => none := by
  unfold command_from_parts
  split
  · rename_i g f heq
    simp at heq
  · rename_i g f heq
    simp at heq
  · rename_i g f heq
    simp at heq
  · rename_i r g l v heq
    simp only [Prod.mk.injEq, Option.some.injEq] at heq
    obtain ⟨rfl, rfl, rfl, rfl⟩ := heq
    rfl
  · rename_i h121 h1 h9 hsome
    exact absurd rfl (hsome rate group level c)

/-- With the checksum byte absent and a rate outside the three special
values, no match arm fires. -/
theorem command_from_parts_none_other (rate group level : Nat)
    (h121 : rate ≠ 121) (h1 : rate ≠ 1) (h9 : rate ≠ 9) :
    command_from_parts (rate, group, level, none) = none := by
  unfold command_from_parts
  split
  · rename_i g f heq
    simp only [Prod.mk.injEq] at heq
    exact absurd heq.1 h121
  · rename_i g f heq
    simp only [Prod.mk.injEq] at heq
    exact absurd heq.1 h1
  · rename_i g f heq
    simp only [Prod.mk.injEq] at heq
    exact absurd heq.1 h9
  · rename_i r g l v heq
    simp at heq
  · rfl

/-! ### Framer step lemmas and concrete runs -/

theorem framer_go_nil_eq (buf : List Nat) : framer_go [] buf = [] := rfl

theorem framer_go_cons_small {c : List Nat} {cs : List (List Nat)}
    {buf : List Nat} (hb : ¬ LINE_LEN < buf.length) (hc : ¬ c.length = 0) :
    framer_go (c :: cs) buf =
      (emit_lines (buf ++ c)).1 ++ framer_go cs (emit_lines (buf ++ c)).2 := by
  rw [framer_go, if_neg hc, if_neg hb]

theorem framer_go_cons_drop_hit {c : List Nat} {cs : List (List Nat)}
    {buf : List Nat} {lr : List Nat × List Nat}
    (hb : LINE_LEN < buf.length) (hc : ¬ c.length = 0)
    (hs : split_line c = some lr) :
    framer_go (c :: cs) buf =
      (emit_lines lr.2).1 ++ framer_go cs (emit_lines lr.2).2 := by
  rw [framer_go, if_neg hc, if_pos hb, hs]

theorem framer_go_cons_drop_miss {c : List Nat} {cs : List (List Nat)}
    {buf : List Nat} (hb : LINE_LEN < buf.length) (hc : ¬ c.length = 0)
    (hs : split_line c = none) :
    framer_go (c :: cs) buf = framer_go cs buf := by
  rw [framer_go, if_neg hc, if_pos hb, hs]

theorem noEol_replicate (n x : Nat) (h13 : x ≠ 13) (h10 : x ≠ 10) :
    noEol (List.replicate n x) := by
  intro b hb
  have hbx := List.eq_of_mem_replicate hb
  subst hbx
  exact ⟨h13, h10⟩

theorem emit_lines_nil : emit_lines [] = ([], []) :=
  emit_lines_of_none rfl

/-- One terminated line in the buffer: it is delivered exactly when it fits. -/
theorem emit_lines_one_lf {c : List Nat} (hc : noEol c) :
    emit_lines (c ++ [10]) =
      (if c.length ≤ LINE_LEN then [c] else [], []) := by
  have hs : split_line (c ++ [10]) = some (c, []) := split_line_lf hc []
  rw [emit_lines_of_some hs, emit_lines_nil]

/-! ## Claim theorems -/

/-- C1 (counterexample): an input line containing a non-hex-digit pair in a
data-field position need not decode to `Unrecognised`: the bytes of
`"0500380079+400"` put the pair `"+4"` (43, 52) in the group field, and
Rust `u8::from_str_radix` accepts a leading plus sign, so the line decodes
to `SetVar(Group(4), ON, Ramp(0))`, contradicting the claim as stated. -/
theorem claim_C1_counterexample :
    decode [48, 53, 48, 48, 51, 56, 48, 48, 55, 57, 43, 52, 48, 48] =
      Message.SetVar ⟨4⟩ ON ⟨0⟩ ∧
    decode [48, 53, 48, 48, 51, 56, 48, 48, 55, 57, 43, 52, 48, 48] ≠
      Message.Unrecognised [48, 53, 48, 48, 51, 56, 48, 48, 55, 57, 43, 52, 48, 48] := by
  constructor
  · decide
  · decide

/-- C1 (amended): decode is total by construction; whenever it returns
`Unrecognised` it carries exactly the original bytes; every input on which
the all-consuming parse of both grammars fails — in particular every input
that parses with leftover bytes and every input of odd total length — maps
to `Unrecognised` of the original bytes; and the five concrete spec
unparseable vectors (empty, short, trailing bytes, odd length, and a pair
with the non-hex, non-plus byte `z`) all do so.  (The only amendment: a
data-field pair consisting of `+` followed by one hex digit is accepted by
`u8::from_str_radix`, so such pairs do not force `Unrecognised`.) -/
theorem claim_C1_amended :
    (∀ bs m, decode bs = Message.Unrecognised m → m = bs)
    ∧ (∀ bs, parse_line bs = none → decode bs = Message.Unrecognised bs)
    ∧ (∀ bs m rest, parse_line bs = some (m, rest) → rest ≠ [] →
        decode bs = Message.Unrecognised bs)
    ∧ (∀ bs, Odd bs.length → decode bs = Message.Unrecognised bs)
    ∧ decode [] = Message.Unrecognised []
    ∧ decode [48, 53, 48, 48, 51, 56, 48, 48, 55, 57, 48, 52] =
        Message.Unrecognised [48, 53, 48, 48, 51, 56, 48, 48, 55, 57, 48, 52]
    ∧ decode [48, 53, 48, 48, 51, 56, 48, 48, 50, 52, 48, 52, 49, 70, 48, 48, 65, 49] =
        Message.Unrecognised [48, 53, 48, 48, 51, 56, 48, 48, 50, 52, 48, 52, 49, 70, 48, 48, 65, 49]
    ∧ decode [48, 53, 48, 48, 51, 56, 48, 48, 55, 57, 48, 52, 48] =
        Message.Unrecognised [48, 53, 48, 48, 51, 56, 48, 48, 55, 57, 48, 52, 48]
    ∧ decode [48, 53, 48, 48, 51, 56, 48, 48, 48, 57, 122, 52, 48, 48] =
        Message.Unrecognised [48, 53, 48, 48, 51, 56, 48, 48, 48, 57, 122, 52, 48, 48] := by
  refine ⟨?_, ?_, ?_, ?_, by decide, by decide, by decide, by decide, by decide⟩
  · intro bs m h
    exact decode_unrecognised_original h
  · intro bs h
    exact decode_of_parse_fail h
  · intro bs m rest h hne
    unfold decode
    rw [h]
    cases rest with
    | nil => exact absurd rfl hne
    | cons r rs => rfl
  · intro bs h
    exact decode_of_odd_length h

/-- C1 witness: the amended claim applied at concrete inputs. -/
theorem claim_C1_witness :
    ([97] : List Nat) = [97] ∧
    decode [97] = Message.Unrecognised [97] ∧
    decode [48] = Message.Unrecognised [48] :=
  ⟨claim_C1_amended.1 [97] [97] (by decide),
   claim_C1_amended.2.1 [97] (by decide),
   claim_C1_amended.2.2.2.1 [48] (by decide)⟩

/-- C2: on every line whose structural command parse succeeds with all
input consumed — literal "05", two skipped bytes, literal "3800", hex rate,
group and level, optional hex checksum — decode yields `SetVar(group, ON,
Ramp 0)` for rate 0x79 (121) with no checksum, `SetVar(group, OFF, Ramp 0)`
for rate 0x01, `StopRamp(group)` for rate 0x09; for any other rate with a
checksum present it yields `SetVar(group, Level level, Ramp.decode rate)`
when the rate is a canonical ramp code and `Unrecognised` otherwise; the
remaining combinations (special rate with checksum, other rate without
checksum) yield `Unrecognised`.  The spec test vector "050038002A041F00"
decodes to `SetVar(Group 4, Level 0x1F, Ramp 30)`. -/
theorem claim_C2 :
    (∀ bs rate group level check,
      command_structural bs = some ((rate, group, level, check), []) →
        ((rate = 121 → check = none → decode bs = Message.SetVar ⟨group⟩ ON ⟨0⟩)
        ∧ (rate = 1 → check = none → decode bs = Message.SetVar ⟨group⟩ OFF ⟨0⟩)
        ∧ (rate = 9 → check = none → decode bs = Message.StopRamp ⟨group⟩)
        ∧ (∀ c, check = some c → rate ≠ 121 → rate ≠ 1 → rate ≠ 9 →
            ((∀ r, Ramp.decode rate = some r →
                decode bs = Message.SetVar ⟨group⟩ ⟨level⟩ r)
            ∧ (Ramp.decode rate = none → decode bs = Message.Unrecognised bs)))
        ∧ (∀ c, check = some c → (rate = 121 ∨ rate = 1 ∨ rate = 9) →
            decode bs = Message.Unrecognised bs)
        ∧ (check = none → rate ≠ 121 → rate ≠ 1 → rate ≠ 9 →
            decode bs = Message.Unrecognised bs)))
    ∧ decode [48, 53, 48, 48, 51, 56, 48, 48, 50, 65, 48, 52, 49, 70, 48, 48] =
        Message.SetVar ⟨4⟩ ⟨31⟩ ⟨30⟩ := by
  constructor
  · intro bs rate group level check h
    refine ⟨?_, ?_, ?_, ?_, ?_, ?_⟩
    · intro hr hc
      subst hr
      subst hc
      rw [decode_of_command_structural h]
      rfl
    · intro hr hc
      subst hr
      subst hc
      rw [decode_of_command_structural h]
      rfl
    · intro hr hc
      subst hr
      subst hc
      rw [decode_of_command_structural h]
      rfl
    · intro c hc h121 h1 h9
      subst hc
      constructor
      · intro r hr
        rw [decode_of_command_structural h, command_from_parts_some_check, hr]
      · intro hr
        rw [decode_of_command_structural h, command_from_parts_some_check, hr]
    · intro c hc hx
      subst hc
      rcases hx with rfl | rfl | rfl <;>
        rw [decode_of_command_structural h, command_from_parts_some_check] <;> rfl
    · intro hc h121 h1 h9
      subst hc
      rw [decode_of_command_structural h,
        command_from_parts_none_other rate group level h121 h1 h9]
  · decide

/-- C2 witness: the general clause applied to the concrete spec command
line, whose parts are rate 0x2A (42), group 4, level 0x1F (31), checksum 0. -/
theorem claim_C2_witness :
    decode [48, 53, 48, 48, 51, 56, 48, 48, 50, 65, 48, 52, 49, 70, 48, 48] =
      Message.SetVar ⟨4⟩ ⟨31⟩ ⟨30⟩ :=
  (((claim_C2.1 [48, 53, 48, 48, 51, 56, 48, 48, 50, 65, 48, 52, 49, 70, 48, 48]
      42 4 31 (some 0) (by decide)).2.2.2.1 0 rfl (by decide) (by decide)
      (by decide)).1 ⟨30⟩ (by decide))

/-- C3: `Ramp.decode` is an exact lookup in the 16-entry table — it returns
`some` exactly on the codes of the table, with the associated duration — and
`Ramp.encode`/`Ramp.decode` round-trip: for requests up to 1020 seconds the
decoded duration is the least table duration at least the request; beyond
1020 seconds the result clamps to 1020. -/
theorem claim_C3 :
    (∀ code r, Ramp.decode code = some r ↔ (code, r.seconds) ∈ RAMP_CODES)
    ∧ (∀ code, Ramp.decode code = none ↔ code ∉ RAMP_CODES.map Prod.fst)
    ∧ (∀ secs, secs ≤ 1020 →
        ∃ s2, (Ramp.decode (Ramp.encode ⟨secs⟩)).map Ramp.seconds = some s2 ∧
          secs ≤ s2 ∧ ∀ t ∈ RAMP_CODES.map Prod.snd, secs ≤ t → s2 ≤ t)
    ∧ (∀ secs, 1020 < secs → Ramp.decode (Ramp.encode ⟨secs⟩) = some ⟨1020⟩) := by
  refine ⟨?_, ?_, ramp_roundtrip_le, ramp_encode_above⟩
  · intro code r
    constructor
    · exact rampLookup_mem
    · intro hm
      obtain ⟨sv⟩ := r
      exact rampLookup_of_mem (by decide) hm
  · intro code
    exact rampLookup_none_iff

/-- C3 witness: the round-trip clauses applied at 100 and 5000 seconds. -/
theorem claim_C3_witness :
    (∃ s2, (Ramp.decode (Ramp.encode ⟨100⟩)).map Ramp.seconds = some s2 ∧
      100 ≤ s2 ∧ ∀ t ∈ RAMP_CODES.map Prod.snd, 100 ≤ t → s2 ≤ t)
    ∧ Ramp.decode (Ramp.encode ⟨5000⟩) = some ⟨1020⟩ :=
  ⟨claim_C3.2.2.1 100 (by decide), claim_C3.2.2.2 5000 (by decide)⟩

/-- C4: the framer never hands the callback a line longer than `LINE_LEN`;
a terminated line of exactly `LINE_LEN` bytes is delivered; a terminated
line of `LINE_LEN + 1` bytes is dropped whole; and a stream carrying one
line of `LINE_LEN + 500` bytes (split across two reads, exercising drop
mode) immediately followed by a short line produces exactly one callback,
for the short line only. -/
theorem claim_C4 :
    (∀ chunks buf line, line ∈ framer_go chunks buf → line.length ≤ LINE_LEN)
    ∧ read_lines [List.replicate 1024 97 ++ [10]] = [List.replicate 1024 97]
    ∧ read_lines [List.replicate 1025 97 ++ [10]] = []
    ∧ read_lines [List.replicate 1524 98, [10, 104, 105, 10]] = [[104, 105]] := by
  refine ⟨framer_go_le, ?_, ?_, ?_⟩
  · have hno := noEol_replicate 1024 97 (by decide) (by decide)
    have he := emit_lines_one_lf hno
    rw [if_pos (by simp [LINE_LEN])] at he
    unfold read_lines
    rw [framer_go_cons_small (by simp [LINE_LEN]) (by simp), List.nil_append,
      he, framer_go_nil_eq]
    simp
  · have hno := noEol_replicate 1025 97 (by decide) (by decide)
    have he := emit_lines_one_lf hno
    rw [if_neg (by simp [LINE_LEN])] at he
    unfold read_lines
    rw [framer_go_cons_small (by simp [LINE_LEN]) (by simp), List.nil_append,
      he, framer_go_nil_eq]
    simp
  · have hno := noEol_replicate 1524 98 (by decide) (by decide)
    have he1 : emit_lines (List.replicate 1524 98) = ([], List.replicate 1524 98) :=
      emit_lines_of_none (split_line_of_noEol hno)
    have he2 : emit_lines [104, 105, 10] = ([[104, 105]], []) := by
      have hs : split_line [104, 105, 10] = some ([104, 105], []) := rfl
      rw [emit_lines_of_some hs, emit_lines_nil]
      simp [LINE_LEN]
    have hs2 : split_line [10, 104, 105, 10] = some ([], [104, 105, 10]) := rfl
    unfold read_lines
    rw [framer_go_cons_small (by simp [LINE_LEN]) (by simp), List.nil_append, he1]
    rw [show (([] : List (List Nat)), List.replicate 1524 98).2 = List.replicate 1524 98 from rfl]
    rw [framer_go_cons_drop_hit (by simp [LINE_LEN]) (by simp) hs2]
    rw [show (([] : List Nat), [104, 105, 10]).2 = [104, 105, 10] from rfl]
    rw [he2, framer_go_nil_eq]
    simp

/-- C4 witness: the universal bound applied to a concrete delivered line. -/
theorem claim_C4_witness : (List.replicate 1024 97).length ≤ LINE_LEN :=
  claim_C4.1 [List.replicate 1024 97 ++ [10]] [] (List.replicate 1024 97)
    (by rw [show framer_go [List.replicate 1024 97 ++ [10]] [] =
          [List.replicate 1024 97] from claim_C4.2.1]
        simp)

/-- C5: encoding `SetVar(group, level, ramp)` yields the backslash byte,
the ASCII literal "05380002", the group and level as two uppercase hex
digits each, and a terminating CR; the ramp is not transmitted, so any two
`SetVar` messages differing only in ramp encode identically.  Concretely,
`SetVar(Group 4, Level 0x1F, Ramp 30)` encodes to the bytes of
"\\05380002041F" followed by CR. -/
theorem claim_C5 :
    (∀ g l r, encode (Message.SetVar ⟨g⟩ ⟨l⟩ r) =
      [92, 48, 53, 51, 56, 48, 48, 48, 50] ++ hexUpper2 g ++ hexUpper2 l ++ [13])
    ∧ (∀ g l r r2, encode (Message.SetVar g l r) = encode (Message.SetVar g l r2))
    ∧ encode (Message.SetVar ⟨4⟩ ⟨31⟩ ⟨30⟩) =
        [92, 48, 53, 51, 56, 48, 48, 48, 50, 48, 52, 49, 70, 13] := by
  refine ⟨?_, ?_, by decide⟩
  · intro g l r
    rfl
  · intro g l r r2
    obtain ⟨gv⟩ := g
    obtain ⟨lv⟩ := l
    rfl

/-- C7: on every line whose structural status parse succeeds with all input
consumed — literal "86", four skipped bytes, literal "00", two skipped
bytes, literal "4038", a hex offset byte, then one or more hex bytes —
decode returns `Status(Group offset, payload)` where the payload is the hex
bytes with the final (unvalidated) checksum byte removed.  The 58-byte
spec vector decodes to `Status(Group 176, twenty zero bytes)`. -/
theorem claim_C7 :
    (∀ bs offset vals, status_structural bs = some ((offset, vals), []) →
      decode bs = Message.Status ⟨offset⟩ vals.dropLast)
    ∧ decode ([56, 54, 48, 56, 49, 53, 48, 48, 70, 55, 52, 48, 51, 56, 66, 48]
        ++ List.replicate 40 48 ++ [51, 69]) =
      Message.Status ⟨176⟩ (List.replicate 20 0) := by
  constructor
  · intro bs offset vals h
    exact decode_of_status_structural h
  · decide

/-- C7 witness: the general clause applied to the spec status vector. -/
theorem claim_C7_witness :
    decode ([56, 54, 48, 56, 49, 53, 48, 48, 70, 55, 52, 48, 51, 56, 66, 48]
        ++ List.replicate 40 48 ++ [51, 69]) =
      Message.Status ⟨176⟩ (List.replicate 20 0 ++ [62]).dropLast :=
  claim_C7.1 _ 176 (List.replicate 20 0 ++ [62]) (by decide)

/-- C8: the preamble is the concatenation of the encodings of `Reset`,
`SetParam(OPTIONS3, LOCAL_SAL | EX_STAT)` and `SetParam(OPTIONS1, SMART |
ID_MON | CONNECT | MONITOR)`, and those bytes are exactly the ASCII of
"~@A342000a\r@A3300071\r". -/
theorem claim_C8 :
    preamble = encode Message.Reset
      ++ encode (Message.SetParam OPTIONS3 (Setting.bitor LOCAL_SAL EX_STAT))
      ++ encode (Message.SetParam OPTIONS1
          (Setting.bitor (Setting.bitor (Setting.bitor SMART ID_MON) CONNECT) MONITOR))
    ∧ preamble = [126, 64, 65, 51, 52, 50, 48, 48, 48, 97, 13,
        64, 65, 51, 51, 48, 48, 48, 55, 49, 13] := by
  constructor
  · rfl
  · decide

/-- C9: the reactor is a stateless per-event translator: a `Level` post
from the HMI passes through as the single `SetVar` with its fields
unchanged, every other HMI post publishes nothing, and every device-bus
event publishes nothing. -/
theorem claim_C9 :
    (∀ g l r, gaffer_react (Event.Hmi (Post.Level g l r)) = [Message.SetVar g l r])
    ∧ (∀ s, gaffer_react (Event.Hmi (Post.On s)) = [])
    ∧ (∀ s, gaffer_react (Event.Hmi (Post.Off s)) = [])
    ∧ (∀ m, gaffer_react (Event.Cbus m) = []) := by
  refine ⟨?_, ?_, ?_, ?_⟩
  · intro g l r
    rfl
  · intro s
    rfl
  · intro s
    rfl
  · intro m
    cases m <;> rfl

/-- C6 (counterexample): a bare CR is not recognized as a line terminator:
the buffer "a\rb" yields no line at all (and the stream delivers nothing),
while "a\nb" delivers "a" — contradicting the claim that CR behaves like
LF. -/
theorem claim_C6_counterexample :
    split_line [97, 13, 98] = none
    ∧ read_lines [[97, 13, 98]] = []
    ∧ read_lines [[97, 10, 98]] = [[97]] := by
  refine ⟨rfl, ?_, ?_⟩
  · have he : emit_lines [97, 13, 98] = ([], [97, 13, 98]) :=
      emit_lines_of_none rfl
    unfold read_lines
    rw [framer_go_cons_small (by simp [LINE_LEN]) (by simp), List.nil_append,
      he, framer_go_nil_eq]
    simp
  · have hs : split_line [97, 10, 98] = some ([97], [98]) := rfl
    have he : emit_lines [97, 10, 98] = ([[97]], [98]) := by
      rw [emit_lines_of_some hs,
        emit_lines_of_none (show split_line [98] = none from rfl)]
      simp [LINE_LEN]
    unfold read_lines
    rw [framer_go_cons_small (by simp [LINE_LEN]) (by simp), List.nil_append,
      he, framer_go_nil_eq]
    simp

/-- C6 (amended): the framer recognizes LF and CRLF terminators — for any
terminator-free content, the content before the terminator is extracted and
the terminator consumed — but not bare CR: a CR at the end of the buffer
leaves the buffer unsplit, and a CR followed by any non-LF byte is a parse
error and the buffer is likewise unsplit. -/
theorem claim_C6_amended :
    (∀ content rest, noEol content →
      split_line (content ++ 10 :: rest) = some (content, rest)
      ∧ split_line (content ++ 13 :: 10 :: rest) = some (content, rest))
    ∧ (∀ content, noEol content → split_line (content ++ [13]) = none)
    ∧ (∀ content x rest, noEol content → x ≠ 10 →
        split_line (content ++ 13 :: x :: rest) = none) := by
  refine ⟨?_, ?_, ?_⟩
  · intro content rest hc
    exact ⟨split_line_lf hc rest, split_line_crlf hc rest⟩
  · intro content hc
    exact split_line_cr_last hc
  · intro content x rest hc hx
    exact split_line_cr_mid hc hx rest

/-- C6 witness: the amended claim applied at concrete content. -/
theorem claim_C6_witness :
    split_line ([97] ++ 10 :: [98]) = some ([97], [98])
    ∧ split_line ([97] ++ [13]) = none :=
  ⟨(claim_C6_amended.1 [97] [98] (by decide)).1,
   claim_C6_amended.2.1 [97] (by decide)⟩

/-- C10: the framer delivers empty lines rather than skipping them: a
terminator at the front of the buffered content yields a zero-length line,
and streams with consecutive terminators produce the corresponding empty
callback invocations. -/
theorem claim_C10 :
    (∀ rest, split_line (10 :: rest) = some ([], rest))
    ∧ (∀ rest, split_line (13 :: 10 :: rest) = some ([], rest))
    ∧ read_lines [[10, 10]] = [[], []]
    ∧ read_lines [[97, 10, 10, 98, 10]] = [[97], [], [98]] := by
  refine ⟨?_, ?_, ?_, ?_⟩
  · intro rest
    exact @split_line_lf [] (by intro b hb; cases hb) rest
  · intro rest
    exact @split_line_crlf [] (by intro b hb; cases hb) rest
  · have he : emit_lines [10, 10] = ([[], []], []) := by
      rw [emit_lines_of_some (show split_line [10, 10] = some ([], [10]) from rfl),
        emit_lines_of_some (show split_line [10] = some ([], []) from rfl),
        emit_lines_nil]
      simp [LINE_LEN]
    unfold read_lines
    rw [framer_go_cons_small (by simp [LINE_LEN]) (by simp), List.nil_append,
      he, framer_go_nil_eq]
    simp
  · have he : emit_lines [97, 10, 10, 98, 10] = ([[97], [], [98]], []) := by
      rw [emit_lines_of_some
          (show split_line [97, 10, 10, 98, 10] = some ([97], [10, 98, 10]) from rfl),
        emit_lines_of_some
          (show split_line [10, 98, 10] = some ([], [98, 10]) from rfl),
        emit_lines_of_some
          (show split_line [98, 10] = some ([98], []) from rfl),
        emit_lines_nil]
      simp [LINE_LEN]
    unfold read_lines
    rw [framer_go_cons_small (by simp [LINE_LEN]) (by simp), List.nil_append,
      he, framer_go_nil_eq]
    simp

end Lights
